import Mathlib

/-!
Verification of the pdm-backend artifact assembly pipeline.

Shallow embedding of the file-collection, archive-writing and metadata
logic of the `pdm-backend` build backend, together with proofs of the
specification claims about it.

The Python sources embedded here are:
* `src/pdm/backend/base.py` (`_merge_globs`, `Builder._collect_files`,
  `Builder.build`, `Builder._is_excluded`, `is_same_or_descendant_path`)
* `src/pdm/backend/structures.py` (`FileMap`)
* `src/pdm/backend/sdist.py` (`normalize_file_permissions`,
  `SdistBuilder.build_artifact`)
* `src/pdm/backend/wheel.py` (`WheelBuilder._add_file_to_zip`,
  `_write_record`, `_get_tag`, `build_artifact`)
* `src/pdm/backend/editable.py` and the vendored `editables` package
* the vendored `pyproject_metadata` (`StandardMetadata._build_extra_req`)
* `pdm/pep517/wheel.py` (`WheelBuilder.tag`, the legacy builder)
-/

namespace PdmBackend

/-! ## Path helpers

Models of the Python standard-library path functions the backend relies
on, for POSIX (`os.sep == "/"`), which is the platform the backend's
path handling is written for (archive paths are always forward-slash).
The string primitives are defined over `String.data` so that every
definition evaluates by kernel reduction.
-/

/-- `str.startswith(pre)`. -/
def strStartsWith (s pre : String) : Bool :=
  pre.data.isPrefixOf s.data

/-- `str.endswith(suf)`. -/
def strEndsWith (s suf : String) : Bool :=
  suf.data.isSuffixOf s.data

/-- `str.__contains__` for a single character. -/
def strContainsChar (s : String) (c : Char) : Bool :=
  s.data.any (fun d => d = c)

/-- `str.replace(a, b)` for single characters. -/
def charReplace (a b : Char) (s : String) : String :=
  String.mk (s.data.map (fun c => if c = a then b else c))

/-- Split a character list on a separator character
(`str.split(sep)` semantics: `""` gives one empty part). -/
def splitOnChar (sep : Char) : List Char → List (List Char)
  | [] => [[]]
  | c :: rest =>
    match splitOnChar sep rest with
    | [] => if c = sep then [[], []] else [[c]]
    | hd :: tl => if c = sep then [] :: hd :: tl else (c :: hd) :: tl

/-- `str.split(sep)` for a single-character separator. -/
def strSplitOn (s : String) (sep : Char) : List String :=
  (splitOnChar sep s.data).map String.mk

/-- `pathlib.PurePosixPath(p).parts`: split on `/`, drop empty
components and `"."`; a leading slash becomes a `"/"` root part
(`"//"` kept as a double-slash root per POSIX). -/
def pathParts (p : String) : List String :=
  let comps := (strSplitOn p '/').filter (fun c => c ≠ "" ∧ c ≠ ".")
  if strStartsWith p "//" ∧ ¬ strStartsWith p "///" then "//" :: comps
  else if strStartsWith p "/" then "/" :: comps
  else comps

/-- `glob.has_magic`: the pattern contains one of the glob magic
characters `*`, `?`, `[`. -/
def hasMagic (s : String) : Bool :=
  s.data.any (fun c => c = '*' ∨ c = '?' ∨ c = '[')

/-- `posixpath.normpath`: collapse repeated separators, resolve `.` and
`..` components lexically. -/
def normpath (path : String) : String :=
  if path = "" then "." else
  let initialSlashes : Nat :=
    if strStartsWith path "/" then
      if strStartsWith path "//" ∧ ¬ strStartsWith path "///" then 2 else 1
    else 0
  let comps := strSplitOn path '/'
  let newComps := comps.foldl
    (fun acc comp =>
      if comp = "" ∨ comp = "." then acc
      else if comp ≠ ".." ∨ (initialSlashes = 0 ∧ acc = [])
          ∨ (acc ≠ [] ∧ acc.getLast? = some "..") then acc ++ [comp]
      else if acc ≠ [] then acc.dropLast
      else acc)
    []
  let joined := String.intercalate "/" newComps
  let result := String.join (List.replicate initialSlashes "/") ++ joined
  if result = "" then "." else result

/-! ## `_merge_globs` (base.py)

`_merge_globs(include_globs, excludes_globs)` merges the two
resolved-glob dictionaries (concrete path -> originating pattern).
Dictionaries are modelled as association lists with unique keys in
insertion order, which is exactly the Python `dict` iteration model.
-/

/-- Python `dict` lookup on the association-list model. -/
def dictLookup (k : String) : List (String × α) → Option α
  | [] => none
  | (k', v) :: rest => if k = k' then some v else dictLookup k rest

/-- Python `del d[k]` on the association-list model (removes the first,
and with unique keys the only, entry for `k`). -/
def dictErase (k : String) : List (String × α) → List (String × α)
  | [] => []
  | (k', v) :: rest => if k = k' then rest else (k', v) :: dictErase k rest

/-- Python `d[k] = v` on the association-list model: update in place if
the key is present, otherwise append. -/
def dictInsert (k : String) (v : α) : List (String × α) → List (String × α)
  | [] => [(k, v)]
  | (k', v') :: rest =>
    if k = k' then (k, v) :: rest else (k', v') :: dictInsert k v rest

/-- `path_weight(pathname)` from `_merge_globs`: a pair
`(number of parts, -wildcard count)` where a `**` part counts 2 and any
other part containing a magic character counts 1 (counting only happens
when the whole pattern has magic; that gate is kept although it does not
change the result). -/
def pathWeight (pathname : String) : Nat × Int :=
  let parts := pathParts pathname
  let wildcardCount : Nat :=
    if hasMagic pathname then
      parts.foldl
        (fun acc part =>
          if part = "**" then acc + 2
          else if hasMagic part then acc + 1
          else acc)
        0
    else 0
  (parts.length, -(wildcardCount : Int))

/-- Python tuple order `(a, b) <= (c, d)` on the weight pairs. -/
def weightLe (x y : Nat × Int) : Bool :=
  x.1 < y.1 ∨ (x.1 = y.1 ∧ x.2 ≤ y.2)

/-- `_merge_globs(include_globs, excludes_globs)`: walk the include
dictionary in order; a path present in both sides is kept as an include
only when its originating pattern weighs strictly more than the exclude
pattern (in which case the path is deleted from the exclude dictionary),
and the surviving exclude keys are returned alongside. -/
def mergeGlobs :
    List (String × String) → List (String × String) → List String × List String
  | [], ex => ([], ex.map Prod.fst)
  | (path, key) :: rest, ex =>
    match dictLookup path ex with
    | some exKey =>
      if weightLe (pathWeight key) (pathWeight exKey) then
        mergeGlobs rest ex  -- Exclude wins
      else
        let r := mergeGlobs rest (dictErase path ex)  -- Include wins
        (path :: r.1, r.2)
    | none =>
      let r := mergeGlobs rest ex
      (path :: r.1, r.2)

/-! ## `fnmatch` and exclusion tests (base.py `_is_excluded`) -/

/-- Scan a character-class body for the closing `]`, returning the
content before it and the rest of the pattern (`fnmatch.translate`
treats an unterminated `[` as a literal). -/
def findClose : List Char → Option (List Char × List Char)
  | [] => none
  | ']' :: rest => some ([], rest)
  | c :: rest =>
    match findClose rest with
    | some (content, r) => some (c :: content, r)
    | none => none

/-- Parse a `[...]` character class after the opening bracket:
an optional leading `!` negates, a `]` right after that is literal
content. Returns `(negated, content, rest-of-pattern)`. -/
def parseClass (ps : List Char) : Option (Bool × List Char × List Char) :=
  let p := match ps with
    | '!' :: r => (true, r)
    | _ => (false, ps)
  match p.2 with
  | ']' :: r2 =>
    match findClose r2 with
    | some (content, rest) => some (p.1, ']' :: content, rest)
    | none => none
  | other =>
    match findClose other with
    | some (content, rest) => some (p.1, content, rest)
    | none => none

/-- Turn class content into (lo, hi) ranges; `a-b` is a range, a lone
character `c` is the range `(c, c)`, hyphens at the edges are literal. -/
def classItems : List Char → List (Char × Char)
  | [] => []
  | a :: '-' :: b :: rest => (a, b) :: classItems rest
  | a :: rest => (a, a) :: classItems rest

/-- Membership of a character in a (possibly negated) class. -/
def classMatches (neg : Bool) (items : List (Char × Char)) (c : Char) : Bool :=
  let m := items.any (fun ab => ab.1 ≤ c ∧ c ≤ ab.2)
  if neg then !m else m

/-- `fnmatch.fnmatch` on character lists (POSIX: `normcase` is the
identity): `*` matches any sequence including `/`, `?` any single
character, `[...]` a character class. -/
def fnmatchChars : List Char → List Char → Bool
  | [], [] => true
  | [], _ :: _ => false
  | '*' :: ps, cs =>
    fnmatchChars ps cs ||
      (match cs with
       | [] => false
       | _ :: cs' => fnmatchChars ('*' :: ps) cs')
  | '?' :: ps, cs =>
    match cs with
    | [] => false
    | _ :: cs' => fnmatchChars ps cs'
  | '[' :: ps, cs =>
    match parseClass ps with
    | some (neg, content, ps') =>
      (match cs with
       | [] => false
       | c :: cs' => classMatches neg (classItems content) c && fnmatchChars ps' cs')
    | none =>
      (match cs with
       | [] => false
       | c :: cs' => ('[' = c) && fnmatchChars ps cs')
  | p :: ps, cs =>
    match cs with
    | [] => false
    | c :: cs' => p = c && fnmatchChars ps cs'
  termination_by ps cs => (cs.length, ps.length)

/-- `fnmatch.fnmatch(path, pattern)`. -/
def fnmatch (path pattern : String) : Bool :=
  fnmatchChars pattern.data path.data

/-- `is_same_or_descendant_path(target, path)` (base.py): succeeds when
`Path(target).relative_to(path)` does, i.e. when `path`'s parts are a
prefix of `target`'s parts. -/
def isSameOrDescendantPath (target path : String) : Bool :=
  (pathParts path).isPrefixOf (pathParts target)

/-- `Builder._is_excluded(path, exclude_paths)`. -/
def isExcluded (path : String) (excludePaths : List String) : Bool :=
  excludePaths.any
    (fun excludePath =>
      isSameOrDescendantPath path excludePath || fnmatch path excludePath)

/-! ## `FileMap` (structures.py) -/

/-- `FileMap.__normalize_path`: `os.path.normpath`; the backslash
replacement only runs when `os.sep == "\\"`, so on POSIX it is just
`normpath`. -/
def fileMapNormalize (path : String) : String :=
  normpath path

/-- `FileMap`: insertion-ordered mapping from archive-relative path to
source location (source locations modelled as strings). -/
structure FileMap where
  data : List (String × String)
deriving DecidableEq, Repr

/-- `FileMap()` -/
def FileMap.empty : FileMap := ⟨[]⟩

/-- `FileMap.__setitem__`: normalizes the key. -/
def FileMap.setItem (m : FileMap) (key value : String) : FileMap :=
  ⟨dictInsert (fileMapNormalize key) value m.data⟩

/-- `FileMap.__getitem__`: normalizes the key; `none` models `KeyError`. -/
def FileMap.getItem (m : FileMap) (key : String) : Option String :=
  dictLookup (fileMapNormalize key) m.data

/-- `FileMap.__delitem__`: does NOT normalize the key; `none` models the
`KeyError` raised when the raw key is absent from the backing dict. -/
def FileMap.delItem (m : FileMap) (key : String) : Option FileMap :=
  match dictLookup key m.data with
  | some _ => some ⟨dictErase key m.data⟩
  | none => none

/-- The keys of the backing dict, in insertion order. -/
def FileMap.keys (m : FileMap) : List String :=
  m.data.map Prod.fst

/-! ## `Builder._collect_files` (base.py)

The filesystem is modelled as the list of relative POSIX paths of the
regular files under the project root.
-/

/-- The filesystem under the project root. -/
structure FS where
  files : List String
deriving Repr

/-- `(root / dir).glob("**/*")` restricted to regular files, with
paths relative to the root: all files strictly below `dir` (pathlib
glob, unlike the `glob` module, also matches hidden names). -/
def globStar (fs : FS) (dir : String) : List String :=
  fs.files.filter (fun f => strStartsWith f (dir ++ "/"))

/-- The inner loop of `_collect_files` for one directory include path:
skip non-files (already done by `globStar`), skip names ending in
`.pyc` (the file's final component ends in `.pyc` exactly when the
whole relative path does) and excluded paths, store the rest. -/
def collectDir (fs : FS) (excludes : List String) (files : FileMap)
    (includePath : String) : FileMap :=
  (globStar fs includePath).foldl
    (fun files p =>
      if strEndsWith p ".pyc" || isExcluded p excludes then files
      else files.setItem p p)
    files

/-- `Builder._collect_files`: for every resolved include path, a file
is stored directly under its include path; a directory is recursed
into with the `.pyc`/exclusion filter. -/
def collectFiles (fs : FS) (includes excludes : List String) : FileMap :=
  includes.foldl
    (fun files includePath =>
      if includePath ∈ fs.files then files.setItem includePath includePath
      else collectDir fs excludes files includePath)
    FileMap.empty

/-! ## `normalize_file_permissions` (sdist.py) -/

/-- `normalize_file_permissions(st_mode)`: set 644 permissions leaving
the higher bits of `st_mode` unchanged (`(st_mode | 0o644) & ~0o133`,
where `x & ~y` on non-negative ints is `Nat.ldiff`), then grant execute
to all when the owner-execute bit was set. -/
def normalizeFilePermissions (st_mode : Nat) : Nat :=
  let new_mode := Nat.ldiff (st_mode ||| 0o644) 0o133
  if st_mode &&& 0o100 ≠ 0 then new_mode ||| 0o111 else new_mode

/-! ## `Builder.build` sorting (base.py)

`build` does `files = sorted(self.get_files(context))` over
`(relpath, path)` tuples, i.e. a stable sort under the lexicographic
tuple order, before handing the list to `build_artifact`.
-/

/-- Python tuple comparison `(a1, a2) <= (b1, b2)`. -/
def pairLe (a b : String × String) : Bool :=
  a.1 < b.1 ∨ (a.1 = b.1 ∧ a.2 ≤ b.2)

/-- Python `sorted` on `(relpath, path)` pairs. -/
def pythonSorted (l : List (String × String)) : List (String × String) :=
  l.mergeSort pairLe

/-! ## SHA-256 (FIPS 180-4)

The algorithm behind `hashlib.sha256`, over byte lists, with 32-bit
words represented as `Nat` reduced mod `2 ^ 32`.
-/

/-- Truncate to a 32-bit word. -/
def w32 (x : Nat) : Nat := x % 4294967296

/-- 32-bit right rotation. -/
def rotr (n x : Nat) : Nat := w32 ((x >>> n) ||| (x <<< (32 - n)))

def bsig0 (x : Nat) : Nat := rotr 2 x ^^^ rotr 13 x ^^^ rotr 22 x
def bsig1 (x : Nat) : Nat := rotr 6 x ^^^ rotr 11 x ^^^ rotr 25 x
def ssig0 (x : Nat) : Nat := rotr 7 x ^^^ rotr 18 x ^^^ (x >>> 3)
def ssig1 (x : Nat) : Nat := rotr 17 x ^^^ rotr 19 x ^^^ (x >>> 10)
def chFn (x y z : Nat) : Nat := (x &&& y) ^^^ ((x ^^^ 4294967295) &&& z)
def majFn (x y z : Nat) : Nat := (x &&& y) ^^^ (x &&& z) ^^^ (y &&& z)

/-- The 64 SHA-256 round constants. -/
def sha256K : List Nat :=
  [1116352408, 1899447441, 3049323471, 3921009573,
   961987163, 1508970993, 2453635748, 2870763221,
   3624381080, 310598401, 607225278, 1426881987,
   1925078388, 2162078206, 2614888103, 3248222580,
   3835390401, 4022224774, 264347078, 604807628,
   770255983, 1249150122, 1555081692, 1996064986,
   2554220882, 2821834349, 2952996808, 3210313671,
   3336571891, 3584528711, 113926993, 338241895,
   666307205, 773529912, 1294757372, 1396182291,
   1695183700, 1986661051, 2177026350, 2456956037,
   2730485921, 2820302411, 3259730800, 3345764771,
   3516065817, 3600352804, 4094571909, 275423344,
   430227734, 506948616, 659060556, 883997877,
   958139571, 1322822218, 1537002063, 1747873779,
   1955562222, 2024104815, 2227730452, 2361852424,
   2428436474, 2756734187, 3204031479, 3329325298]

/-- The initial hash value. -/
def sha256Init : List Nat :=
  [1779033703, 3144134277, 1013904242, 2773480762,
   1359893119, 2600822924, 528734635, 1541459225]

/-- Group bytes into big-endian 32-bit words. -/
def wordsOfBytesBE : List Nat → List Nat
  | b0 :: b1 :: b2 :: b3 :: rest =>
    (b0 * 16777216 + b1 * 65536 + b2 * 256 + b3) :: wordsOfBytesBE rest
  | _ => []

/-- A 32-bit word as four big-endian bytes. -/
def bytesOfWordBE (w : Nat) : List Nat :=
  [w / 16777216 % 256, w / 65536 % 256, w / 256 % 256, w % 256]

/-- A 64-bit value as eight big-endian bytes. -/
def bytesOfLenBE (n : Nat) : List Nat :=
  [n / 72057594037927936 % 256, n / 281474976710656 % 256,
   n / 1099511627776 % 256, n / 4294967296 % 256,
   n / 16777216 % 256, n / 65536 % 256, n / 256 % 256, n % 256]

/-- SHA-256 message padding. -/
def sha256Pad (msg : List Nat) : List Nat :=
  let zeros := (64 - (msg.length + 9) % 64) % 64
  msg ++ 0x80 :: List.replicate zeros 0 ++ bytesOfLenBE (8 * msg.length)

/-- Split the padded message into 64-byte blocks. -/
def sha256Blocks : List Nat → List (List Nat)
  | [] => []
  | b :: rest => (b :: rest).take 64 :: sha256Blocks ((b :: rest).drop 64)
  termination_by l => l.length
  decreasing_by simp [List.length_drop]; omega

/-- Extend the 16 block words to the 64-entry message schedule. -/
def sha256Schedule (ws : List Nat) : List Nat :=
  (List.range 48).foldl
    (fun w _ =>
      w ++ [w32 (ssig1 (w.getD (w.length - 2) 0) + w.getD (w.length - 7) 0 +
        ssig0 (w.getD (w.length - 15) 0) + w.getD (w.length - 16) 0)])
    ws

/-- The working variables of the compression function. -/
structure Sha256S where
  a : Nat
  b : Nat
  c : Nat
  d : Nat
  e : Nat
  f : Nat
  g : Nat
  h : Nat

/-- One compression round, given the round constant and schedule word. -/
def sha256Round (s : Sha256S) (kw : Nat × Nat) : Sha256S :=
  let t1 := w32 (s.h + bsig1 s.e + chFn s.e s.f s.g + kw.1 + kw.2)
  let t2 := w32 (bsig0 s.a + majFn s.a s.b s.c)
  ⟨w32 (t1 + t2), s.a, s.b, s.c, w32 (s.d + t1), s.e, s.f, s.g⟩

/-- Compress one 64-byte block into the running hash value. -/
def sha256Compress (h : List Nat) (block : List Nat) : List Nat :=
  let w := sha256Schedule (wordsOfBytesBE block)
  let init : Sha256S :=
    ⟨h.getD 0 0, h.getD 1 0, h.getD 2 0, h.getD 3 0,
     h.getD 4 0, h.getD 5 0, h.getD 6 0, h.getD 7 0⟩
  let s := (sha256K.zip w).foldl sha256Round init
  [w32 (h.getD 0 0 + s.a), w32 (h.getD 1 0 + s.b), w32 (h.getD 2 0 + s.c),
   w32 (h.getD 3 0 + s.d), w32 (h.getD 4 0 + s.e), w32 (h.getD 5 0 + s.f),
   w32 (h.getD 6 0 + s.g), w32 (h.getD 7 0 + s.h)]

/-- `hashlib.sha256(msg).digest()` as a list of 32 bytes. -/
def sha256 (msg : List Nat) : List Nat :=
  ((sha256Blocks (sha256Pad msg)).foldl sha256Compress sha256Init).map
    bytesOfWordBE |>.flatten

/-! ## URL-safe base64 without padding (`base64.urlsafe_b64encode`
followed by `.rstrip("=")`, wheel.py `_write_zip_info`). -/

/-- The URL-safe base64 alphabet. -/
def b64urlAlphabet : List Char :=
  "ABCDEFGHIJKLMNOPQRSTUVWXYZabcdefghijklmnopqrstuvwxyz0123456789-_".data

/-- Index into the alphabet. -/
def b64Char (n : Nat) : Char := b64urlAlphabet.getD n 'A'

/-- URL-safe base64 with the trailing `=` padding stripped. -/
def b64urlNoPad : List Nat → String
  | [] => ""
  | [b1] => String.mk [b64Char (b1 / 4), b64Char (b1 % 4 * 16)]
  | [b1, b2] =>
    String.mk [b64Char (b1 / 4), b64Char (b1 % 4 * 16 + b2 / 16),
      b64Char (b2 % 16 * 4)]
  | b1 :: b2 :: b3 :: rest =>
    String.mk [b64Char (b1 / 4), b64Char (b1 % 4 * 16 + b2 / 16),
      b64Char (b2 % 16 * 4 + b3 / 64), b64Char (b3 % 64)] ++ b64urlNoPad rest

/-! ## CSV rendering (`csv.writer(..., lineterminator="\n")`,
default dialect with minimal quoting, wheel.py `_write_record`). -/

/-- A field must be quoted when it contains the delimiter, the quote
character or a character of the line terminator (here `"\n"`). -/
def csvNeedsQuote (field : String) : Bool :=
  field.data.any (fun c => c = ',' ∨ c = '"' ∨ c = '\n')

/-- Render one CSV field, doubling embedded quotes when quoting. -/
def csvField (field : String) : String :=
  if csvNeedsQuote field then
    "\"" ++ String.mk ((field.data.map
      (fun c => if c = '"' then ['"', '"'] else [c])).flatten) ++ "\""
  else field

/-- Render one CSV row with `\n` as the line terminator. -/
def csvRow (fields : List String) : String :=
  String.intercalate "," (fields.map csvField) ++ "\n"

/-! ## Wheel archive writing (wheel.py)

The zip archive is modelled as the list of `(entry name, entry bytes)`
pairs in write order; the bytes of a source file are supplied by a
`fsContent` map. `zipfile` compression does not change the bytes an
installer extracts, so entries store the uncompressed bytes, which are
also exactly the bytes `_write_zip_info` hashes.
-/

/-- A RECORD row: `(relpath, hash_digest, size)`. -/
structure RecordEntry where
  relpath : String
  hashDigest : String
  size : String
deriving DecidableEq, Repr

/-- UTF-8 encoding of one character. -/
def utf8EncodeChar (c : Char) : List Nat :=
  let n := c.toNat
  if n < 128 then [n]
  else if n < 2048 then [192 + n / 64, 128 + n % 64]
  else if n < 65536 then [224 + n / 4096, 128 + n / 64 % 64, 128 + n % 64]
  else [240 + n / 262144, 128 + n / 4096 % 64, 128 + n / 64 % 64, 128 + n % 64]

/-- UTF-8 bytes of a string. -/
def utf8Bytes (s : String) : List Nat :=
  (s.data.map utf8EncodeChar).flatten

/-- `WheelBuilder._write_zip_info`: hash the bytes, write them as the
next archive entry, return the stripped URL-safe digest. -/
def writeZipInfo (zf : List (String × List Nat)) (filename : String)
    (data : List Nat) : List (String × List Nat) × String :=
  (zf ++ [(filename, data)], b64urlNoPad (sha256 data))

/-- `WheelBuilder._add_file_to_zip`: read the source bytes, write them,
record `(relpath, "sha256=" ++ digest, size)` where the size is the
entry's `file_size`, i.e. the byte count of the written data. -/
def addFileToZip (fsContent : String → List Nat)
    (zf : List (String × List Nat)) (relPath fullPath : String) :
    List (String × List Nat) × RecordEntry :=
  let data := fsContent fullPath
  let r := writeZipInfo zf relPath data
  (r.1, ⟨relPath, "sha256=" ++ r.2, toString data.length⟩)

/-- `WheelBuilder._write_record`: write all collected record rows plus
the self-referential empty row as CSV into the final archive entry. -/
def writeRecord (distInfoName : String) (zf : List (String × List Nat))
    (records : List RecordEntry) : List (String × List Nat) :=
  let filename := distInfoName ++ "/RECORD"
  let content := String.join
    ((records ++ [RecordEntry.mk filename "" ""]).map
      (fun r => csvRow [r.relpath, r.hashDigest, r.size]))
  (writeZipInfo zf filename (utf8Bytes content)).1

/-- The zip-writing loop of `WheelBuilder.build_artifact`: add every
`(relpath, fullpath)` pair, then write RECORD last. -/
def wheelBuildZip (fsContent : String → List Nat) (distInfoName : String)
    (files : List (String × String)) : List (String × List Nat) :=
  let r := files.foldl
    (fun (acc : List (String × List Nat) × List RecordEntry) pf =>
      let s := addFileToZip fsContent acc.1 pf.1 pf.2
      (s.1, acc.2 ++ [s.2]))
    ([], [])
  writeRecord distInfoName r.1 r.2

/-- Independent re-derivation of the RECORD bytes from the bytes stored
in the archive entries themselves: one row per entry with the re-hashed
digest and re-counted size, plus the empty self row. -/
def recordBytesOfEntries (distInfoName : String)
    (entries : List (String × List Nat)) : List Nat :=
  utf8Bytes (String.join
    ((entries.map (fun e =>
        csvRow [e.1, "sha256=" ++ b64urlNoPad (sha256 e.2),
          toString e.2.length]) ++
      [csvRow [distInfoName ++ "/RECORD", "", ""]])))

/-- The record row `_add_file_to_zip` produces for one file. -/
def recordOf (fsContent : String → List Nat) (pf : String × String) :
    RecordEntry :=
  ⟨pf.1, "sha256=" ++ b64urlNoPad (sha256 (fsContent pf.2)),
    toString (fsContent pf.2).length⟩

/-! ## Artifact file lifecycle (wheel.py / sdist.py `build_artifact`)

The filesystem side effects of the two `build_artifact` methods, in
program order, as an event trace.
-/

/-- Filesystem events performed by `build_artifact`. -/
inductive FsEvent where
  /-- `tempfile.mkstemp`: create a fresh temporary file. -/
  | mkstemp (path : String)
  /-- `os.chmod` on the temporary file. -/
  | chmod (path : String)
  /-- write one archive entry into the file at `path`. -/
  | writeEntry (path : String) (rel : String)
  /-- `target.unlink()` / `os.unlink`. -/
  | unlink (path : String)
  /-- `shutil.move(src, dst)`. -/
  | move (src : String) (dst : String)
  /-- `tarfile.open(target, "w:gz")`: open the destination for writing. -/
  | openWrite (path : String)
deriving DecidableEq, Repr

/-- `WheelBuilder.build_artifact` (also inherited unchanged by
`EditableBuilder`): make a temp file, chmod it, write every entry and
RECORD into it, remove a pre-existing destination, move the temp file
to the destination. -/
def wheelBuildArtifactTrace (tempName target : String) (files : List String)
    (targetExists : Bool) : List FsEvent :=
  [.mkstemp tempName, .chmod tempName] ++
    files.map (fun rel => .writeEntry tempName rel) ++
    [.writeEntry tempName "RECORD"] ++
    (if targetExists then [.unlink target] else []) ++
    [.move tempName target]

/-- `SdistBuilder.build_artifact`: open the destination tarball itself
and write every entry plus PKG-INFO straight into it. -/
def sdistBuildArtifactTrace (target : String) (files : List String) :
    List FsEvent :=
  .openWrite target ::
    files.map (fun rel => FsEvent.writeEntry target rel) ++
    [.writeEntry target "PKG-INFO"]

/-- Whether an event creates, writes, removes or replaces the file at
`p`. -/
def FsEvent.touches (e : FsEvent) (p : String) : Bool :=
  match e with
  | .mkstemp q => q = p
  | .chmod q => q = p
  | .writeEntry q _ => q = p
  | .unlink q => q = p
  | .move _ dst => dst = p
  | .openWrite q => q = p

/-! ## Wheel compatibility tags (wheel.py `_get_tag` and the legacy
pdm/pep517 `WheelBuilder.tag`). -/

/-- One of `packaging.tags.sys_tags()`. -/
structure SysTag where
  interpreter : String
  abi : String
  platform : String
deriving DecidableEq, Repr

/-- `platform.lower().replace("-", "_").replace(".", "_")`. -/
def lowerReplace (platform : String) : String :=
  charReplace '.' '_' (charReplace '-' '_'
    (String.mk (platform.data.map Char.toLower)))

/-- `WheelBuilder._get_tag` (src/pdm/backend/wheel.py): fill the three
segments from overrides, the first `sys_tags()` entry (impure) or the
pure defaults, normalize the platform, join with `-`. The overrides are
`None` (or absent) when not configured; note there is no validation of
the result against the supported tag set. -/
def getTag (pythonTag pyLimitedApi platName : Option String)
    (isPurelib : Bool) (sysTag : SysTag)
    (requiresPythonContains27 : Bool) : String :=
  let impl := pythonTag
  let abi := pyLimitedApi
  let platform := platName
  let r :
      String × String × String :=
    if ¬ isPurelib then
      (impl.getD sysTag.interpreter, abi.getD sysTag.abi,
        platform.getD sysTag.platform)
    else
      (impl.getD (if requiresPythonContains27 then "py2.py3" else "py3"),
        abi.getD "none", platform.getD "any")
  r.1 ++ "-" ++ r.2.1 ++ "-" ++ lowerReplace r.2.2

/-- Modelled from the spec: "the writer must assert the computed tag is
among the interpreter's advertised supported tags and fail loudly if
not". The same tag computation as `getTag`, followed by the membership
check the spec requires for non-pure builds; the error carries the
offending tag. -/
def getTagChecked (pythonTag pyLimitedApi platName : Option String)
    (isPurelib : Bool) (sysTag : SysTag) (supported : List SysTag)
    (requiresPythonContains27 : Bool) : Except String String :=
  let tag := getTag pythonTag pyLimitedApi platName isPurelib sysTag
    requiresPythonContains27
  if isPurelib ∨ (supported.map
      (fun t => t.interpreter ++ "-" ++ t.abi ++ "-" ++
        lowerReplace t.platform)).contains tag then
    .ok tag
  else .error tag

/-- The legacy `WheelBuilder.tag` property (pdm/pep517/wheel.py): same
segment selection, but a limited-API override on a CPython 3 impl tag
collapses the ABI to `abi3`, and for non-purelib builds the result is
asserted to lie in the supported tag list (whose platform column is
substituted with the target platform). The assertion failure is the
`.error` case, carrying the offending triple. -/
def legacyTag (pythonTag pyLimitedApi platName : Option String)
    (isPurelib : Bool) (buildPlatform interpNameVer abiTagLower : String)
    (sysTags : List SysTag) (requiresPythonContains27 : Bool) :
    Except (String × String × String) String :=
  if ¬ isPurelib then
    let impl := (pythonTag.getD interpNameVer)
    let ia : String × String :=
      if pyLimitedApi.isSome ∧ strStartsWith impl "cp3" then
        (pyLimitedApi.getD "", "abi3")
      else (impl, abiTagLower)
    let platform := lowerReplace (platName.getD buildPlatform)
    let tag := (ia.1, ia.2, platform)
    let supported := sysTags.map (fun t => (t.interpreter, t.abi, platform))
    if tag ∈ supported then .ok (ia.1 ++ "-" ++ ia.2 ++ "-" ++ platform)
    else .error tag
  else
    let impl := pythonTag.getD
      (if requiresPythonContains27 then "py2.py3" else "py3")
    let platform := lowerReplace (platName.getD "any")
    .ok (impl ++ "-" ++ "none" ++ "-" ++ platform)

/-! ## Editable builds (editable.py and the vendored `editables`) -/

/-- What the filesystem holds at an absolute path. -/
inductive PathKind where
  | dir
  | file
  | nothing
deriving DecidableEq, Repr

/-- `utils.safe_name`: collapse every run of characters outside
`[A-Za-z0-9.]` to a single `-`. -/
def safeName (name : String) : String :=
  String.mk
    ((name.data.foldl
      (fun (acc : List Char × Bool) c =>
        if c.isAlphanum ∨ c = '.' then (acc.1 ++ [c], false)
        else if acc.2 then acc else (acc.1 ++ ['-'], true))
      ([], false)).1)

/-- `utils.to_filename`: replace `-` with `_`. -/
def toFilename (name : String) : String :=
  charReplace '-' '_' name

/-- `editables.is_valid`: the PEP 426 project-name check
`^([A-Z0-9]|[A-Z0-9][A-Z0-9._-]*[A-Z0-9])$`, case-insensitive. -/
def isValidProjectName (name : String) : Bool :=
  match name.data with
  | [] => false
  | l =>
    l.all (fun c => c.isAlphanum ∨ c = '.' ∨ c = '_' ∨ c = '-') ∧
    (l.headI.isAlphanum) ∧ (l.getLastI.isAlphanum)

/-- `editables.normalize`: `re.sub(r"[-_.]+", "_", name).lower()`. -/
def normalizeProjectName (name : String) : String :=
  String.mk
    ((name.data.foldl
      (fun (acc : List Char × Bool) c =>
        if c = '-' ∨ c = '_' ∨ c = '.' then
          if acc.2 then acc else (acc.1 ++ ['_'], true)
        else (acc.1 ++ [c.toLower], false))
      ([], false)).1)

/-- `editables.EditableProject`: redirections and raw path entries
accumulated for one editable build. -/
structure EditableProject where
  projectName : String
  bootstrap : String
  projectDir : String
  redirections : List (String × String)
  pathEntries : List String
deriving DecidableEq, Repr

/-- The target actually probed by `EditableProject.map`: the resolved
target itself, or its `__init__.py` when it is a directory. -/
def epMapTarget (fsKind : String → PathKind) (absTarget : String) : String :=
  match fsKind absTarget with
  | .dir => absTarget ++ "/__init__.py"
  | _ => absTarget

/-- `EditableProject.map(name, target)`: refuse dotted names, resolve
the target against the project dir (`resolve` stands for
`Path.resolve`, a filesystem operation), append `/__init__.py` for a
directory, store the redirection for a file, raise otherwise. -/
def epMap (fsKind : String → PathKind) (resolve : String → String → String)
    (ep : EditableProject) (name target : String) :
    Except String EditableProject :=
  if strContainsChar name '.' then
    .error ("Cannot map " ++ name ++ " as it is not a top-level package")
  else
    match fsKind (epMapTarget fsKind (resolve ep.projectDir target)) with
    | .file =>
      .ok { ep with
        redirections :=
          dictInsert name (epMapTarget fsKind (resolve ep.projectDir target))
            ep.redirections }
    | _ => .error (target ++ " is not a valid Python package or module")

/-- `EditableProject.add_to_path(dirname)`. -/
def epAddToPath (resolve : String → String → String) (ep : EditableProject)
    (dirname : String) : EditableProject :=
  { ep with pathEntries := ep.pathEntries ++ [resolve ep.projectDir dirname] }

/-- `os.path.join` for the relative POSIX paths used here. -/
def osJoin (d p : String) : String :=
  if d = "" then p else if strEndsWith d "/" then d ++ p else d ++ "/" ++ p

/-- The package loop of `EditableBuildHook._prepare_editable`: skip
dotted (nested) packages, map the rest; a raised `EditableException`
propagates out of the loop. -/
def preparePackages (fsKind : String → PathKind)
    (resolve : String → String → String) (packageDir : String) :
    List String → EditableProject → Except String EditableProject
  | [], ep => .ok ep
  | package :: rest, ep =>
    if strContainsChar package '.' then
      preparePackages fsKind resolve packageDir rest ep
    else
      match epMap fsKind resolve ep package (osJoin packageDir package) with
      | .ok ep' => preparePackages fsKind resolve packageDir rest ep'
      | .error e => .error e

/-- The module loop of `_prepare_editable` (POSIX: the probe patterns
are `{module}.py` then `{module}.*.so`): the first pattern that globs to
a path is mapped, then the probing stops. `globFirst dir pattern` is
`next(Path(dir).glob(pattern), None)` as a POSIX path. -/
def prepareModules (fsKind : String → PathKind)
    (resolve : String → String → String)
    (globFirst : String → String → Option String) (packageDir : String) :
    List String → EditableProject → Except String EditableProject
  | [], ep => .ok ep
  | module :: rest, ep =>
    if strContainsChar module '.' then
      prepareModules fsKind resolve globFirst packageDir rest ep
    else
      match [module ++ ".py", module ++ ".*.so"].findSome?
          (fun pat => globFirst packageDir pat) with
      | some path =>
        match epMap fsKind resolve ep module path with
        | .ok ep' => prepareModules fsKind resolve globFirst packageDir rest ep'
        | .error e => .error e
      | none => prepareModules fsKind resolve globFirst packageDir rest ep

/-- The warning text surfaced when the `.pth` fallback triggers. -/
def editableFallbackWarning : String :=
  "editables backend is not available for namespace packages, " ++
    "fallback to path entries"

/-- `EditableBuildHook._prepare_editable`: construct the project (name
validated then normalized), run the package and module redirection
loops for the `editables` backend, and when no redirection was
established fall back to a raw path entry for the package dir, warning
if the `editables` backend had been requested. The warnings emitted
through `warnings.warn` are returned alongside. -/
def prepareEditable (fsKind : String → PathKind)
    (resolve : String → String → String)
    (globFirst : String → String → Option String)
    (metadataName projectDir packageDir backend : String)
    (packages pyModules : List String) :
    Except String (EditableProject × List String) :=
  let rawName := toFilename (safeName metadataName)
  if ¬ isValidProjectName rawName then
    .error ("Project name " ++ rawName ++ " is not valid")
  else
    let name := normalizeProjectName rawName
    let ep0 : EditableProject :=
      ⟨name, "_editable_impl_" ++ name, projectDir, [], []⟩
    let epRes :=
      if backend = "editables" then
        match preparePackages fsKind resolve packageDir packages ep0 with
        | .ok ep1 => prepareModules fsKind resolve globFirst packageDir
            pyModules ep1
        | .error e => .error e
      else .ok ep0
    match epRes with
    | .error e => .error e
    | .ok ep =>
      if ep.redirections = [] then
        .ok (epAddToPath resolve ep packageDir,
          if backend = "editables" then [editableFallbackWarning] else [])
      else .ok (ep, [])

/-! ## Optional-dependency markers (vendored pyproject_metadata
`StandardMetadata._build_extra_req`)

The vendored `packaging.markers` module is part of the repository but
not present under src/, so the `Marker` data structure and its string
rendering are modelled from the spec.
-/

/-- Modelled from the spec: one element of `packaging`'s parsed
`Marker._markers` list — a comparison expression (a tuple in Python),
a top-level boolean operator keyword (a plain string in Python), or a
parenthesized subexpression (a nested list in Python). -/
inductive MarkerItem where
  | expr (s : String)
  | op (s : String)
  | group (l : List MarkerItem)

/-- Modelled from the spec: a parsed environment marker, wrapping the
`_markers` list. -/
structure Marker where
  markers : List MarkerItem

mutual

/-- Modelled from the spec: `str(Marker)` — items joined by spaces,
nested groups parenthesized, the top level bare. -/
def renderItem : MarkerItem → String
  | .expr s => s
  | .op s => s
  | .group l => "(" ++ renderItems l ++ ")"

def renderItems : List MarkerItem → String
  | [] => ""
  | [x] => renderItem x
  | x :: y :: rest => renderItem x ++ " " ++ renderItems (y :: rest)

end

/-- `str` of a whole marker. -/
def renderMarker (m : Marker) : String :=
  renderItems m.markers

/-- `'or' in requirement.marker._markers`: Python `in` compares each
element with the string `"or"`, which only a top-level operator keyword
can equal (tuples and sublists never compare equal to a string). -/
def hasTopLevelOr (m : Marker) : Bool :=
  m.markers.any (fun i => match i with | .op s => s = "or" | _ => false)

/-- A requirement, reduced to the part `_build_extra_req` manipulates. -/
structure Requirement where
  marker : Option Marker

/-- The `extra == "G"` comparison for a group name. -/
def extraExpr (extra : String) : String :=
  "extra == \"" ++ extra ++ "\""

/-- `StandardMetadata._build_extra_req`: conjoin the group marker.
The `pkg_markers.Marker(f'...')` constructor calls are modelled from
the spec: parsing `'(<old>) and <e>'` yields the old list as one
parenthesized group followed by `and` and the comparison, parsing
`'<old> and <e>'` appends to the old top-level list, and parsing the
bare comparison yields a singleton list. -/
def buildExtraReq (extra : String) (r : Requirement) : Requirement :=
  match r.marker with
  | some m =>
    if hasTopLevelOr m then
      ⟨some ⟨[.group m.markers, .op "and", .expr (extraExpr extra)]⟩⟩
    else
      ⟨some ⟨m.markers ++ [.op "and", .expr (extraExpr extra)]⟩⟩
  | none => ⟨some ⟨[.expr (extraExpr extra)]⟩⟩

/-! ### Dictionary lemmas -/

theorem dictLookup_none_iff {α : Type} (p : String) (l : List (String × α)) :
    dictLookup p l = none ↔ p ∉ l.map Prod.fst := by
  induction l with
  | nil => simp [dictLookup]
  | cons hd tl ih =>
    by_cases h : p = hd.1 <;> simp [dictLookup, h, ih]

theorem dictErase_map_fst_sublist {α : Type} (k : String) (l : List (String × α)) :
    ((dictErase k l).map Prod.fst).Sublist (l.map Prod.fst) := by
  induction l with
  | nil => simp [dictErase]
  | cons hd tl ih =>
    by_cases h : k = hd.1
    · simp [dictErase, h]
    · simpa [dictErase, h] using ih.cons₂ hd.1

theorem dictLookup_erase_ne {α : Type} (k p : String) (l : List (String × α))
    (h : k ≠ p) : dictLookup p (dictErase k l) = dictLookup p l := by
  induction l with
  | nil => rfl
  | cons hd tl ih =>
    by_cases hk : k = hd.1
    · subst hk
      have hp : p ≠ hd.1 := fun hp => h hp.symm
      simp [dictErase, dictLookup, hp]
    · by_cases hp : p = hd.1 <;> simp [dictErase, dictLookup, hk, hp, ih]

theorem not_mem_dictErase_keys {α : Type} (k : String) (l : List (String × α))
    (hnd : (l.map Prod.fst).Nodup) : k ∉ (dictErase k l).map Prod.fst := by
  induction l with
  | nil => simp [dictErase]
  | cons hd tl ih =>
    simp only [List.map_cons, List.nodup_cons] at hnd
    by_cases h : k = hd.1
    · subst h
      simpa [dictErase] using hnd.1
    · simp only [dictErase, if_neg h, List.map_cons, List.mem_cons, not_or]
      exact ⟨h, ih hnd.2⟩

/-! ### `_merge_globs` equations -/

theorem mergeGlobs_cons_none_fst (q kq : String) (tl ex : List (String × String))
    (hq : dictLookup q ex = none) :
    (mergeGlobs ((q, kq) :: tl) ex).1 = q :: (mergeGlobs tl ex).1 := by
  simp [mergeGlobs, hq]

theorem mergeGlobs_cons_none_snd (q kq : String) (tl ex : List (String × String))
    (hq : dictLookup q ex = none) :
    (mergeGlobs ((q, kq) :: tl) ex).2 = (mergeGlobs tl ex).2 := by
  simp [mergeGlobs, hq]

theorem mergeGlobs_cons_skip (q kq ek : String) (tl ex : List (String × String))
    (hq : dictLookup q ex = some ek)
    (hle : weightLe (pathWeight kq) (pathWeight ek) = true) :
    mergeGlobs ((q, kq) :: tl) ex = mergeGlobs tl ex := by
  simp [mergeGlobs, hq, hle]

theorem mergeGlobs_cons_win_fst (q kq ek : String) (tl ex : List (String × String))
    (hq : dictLookup q ex = some ek)
    (hle : weightLe (pathWeight kq) (pathWeight ek) = false) :
    (mergeGlobs ((q, kq) :: tl) ex).1 =
      q :: (mergeGlobs tl (dictErase q ex)).1 := by
  simp [mergeGlobs, hq, hle]

theorem mergeGlobs_cons_win_snd (q kq ek : String) (tl ex : List (String × String))
    (hq : dictLookup q ex = some ek)
    (hle : weightLe (pathWeight kq) (pathWeight ek) = false) :
    (mergeGlobs ((q, kq) :: tl) ex).2 =
      (mergeGlobs tl (dictErase q ex)).2 := by
  simp [mergeGlobs, hq, hle]

/-! ### `_merge_globs` lemmas -/

theorem mergeGlobs_includes_sub (inc ex : List (String × String)) (p : String)
    (h : p ∈ (mergeGlobs inc ex).1) : p ∈ inc.map Prod.fst := by
  induction inc generalizing ex with
  | nil => simp [mergeGlobs] at h
  | cons hd tl ih =>
    obtain ⟨q, kq⟩ := hd
    cases hq : dictLookup q ex with
    | none =>
      rw [mergeGlobs_cons_none_fst q kq tl ex hq] at h
      rcases List.mem_cons.mp h with hpq | h
      · simp [hpq]
      · exact List.mem_cons_of_mem _ (ih ex h)
    | some ek =>
      cases hle : weightLe (pathWeight kq) (pathWeight ek) with
      | true =>
        rw [mergeGlobs_cons_skip q kq ek tl ex hq hle] at h
        exact List.mem_cons_of_mem _ (ih ex h)
      | false =>
        rw [mergeGlobs_cons_win_fst q kq ek tl ex hq hle] at h
        rcases List.mem_cons.mp h with hpq | h
        · simp [hpq]
        · exact List.mem_cons_of_mem _ (ih _ h)

theorem mergeGlobs_excludes_sub (inc ex : List (String × String)) (p : String)
    (h : p ∈ (mergeGlobs inc ex).2) : p ∈ ex.map Prod.fst := by
  induction inc generalizing ex with
  | nil => simpa [mergeGlobs] using h
  | cons hd tl ih =>
    obtain ⟨q, kq⟩ := hd
    cases hq : dictLookup q ex with
    | none =>
      rw [mergeGlobs_cons_none_snd q kq tl ex hq] at h
      exact ih ex h
    | some ek =>
      cases hle : weightLe (pathWeight kq) (pathWeight ek) with
      | true =>
        rw [mergeGlobs_cons_skip q kq ek tl ex hq hle] at h
        exact ih ex h
      | false =>
        rw [mergeGlobs_cons_win_snd q kq ek tl ex hq hle] at h
        exact (dictErase_map_fst_sublist q ex).mem (ih _ h)

theorem mergeGlobs_mem_includes (inc ex : List (String × String))
    (hinc : (inc.map Prod.fst).Nodup) (p : String) :
    p ∈ (mergeGlobs inc ex).1 ↔
      ∃ k, dictLookup p inc = some k ∧
        ∀ ek, dictLookup p ex = some ek →
          weightLe (pathWeight k) (pathWeight ek) = false := by
  induction inc generalizing ex with
  | nil => simp [mergeGlobs, dictLookup]
  | cons hd tl ih =>
    obtain ⟨q, kq⟩ := hd
    simp only [List.map_cons, List.nodup_cons] at hinc
    by_cases hp : p = q
    · subst hp
      have hlk : dictLookup p ((p, kq) :: tl) = some kq := by simp [dictLookup]
      cases hq : dictLookup p ex with
      | none =>
        rw [mergeGlobs_cons_none_fst p kq tl ex hq]
        constructor
        · intro _
          exact ⟨kq, hlk, fun ek hek => by cases hek⟩
        · intro _
          exact List.mem_cons_self _ _
      | some ek =>
        cases hle : weightLe (pathWeight kq) (pathWeight ek) with
        | true =>
          rw [mergeGlobs_cons_skip p kq ek tl ex hq hle]
          constructor
          · intro h
            exact absurd (mergeGlobs_includes_sub tl ex p h) hinc.1
          · rintro ⟨k, hk, hfor⟩
            rw [hlk] at hk
            cases hk
            have hfalse := hfor ek rfl
            rw [hle] at hfalse
            cases hfalse
        | false =>
          rw [mergeGlobs_cons_win_fst p kq ek tl ex hq hle]
          constructor
          · intro _
            refine ⟨kq, hlk, fun ek' hek' => ?_⟩
            cases hek'
            exact hle
          · intro _
            exact List.mem_cons_self _ _
    · have hlk : dictLookup p ((q, kq) :: tl) = dictLookup p tl := by
        simp [dictLookup, hp]
      have hne : q ≠ p := fun h => hp h.symm
      cases hq : dictLookup q ex with
      | none =>
        rw [mergeGlobs_cons_none_fst q kq tl ex hq, List.mem_cons, hlk]
        simp only [hp, false_or]
        exact ih ex hinc.2
      | some ek =>
        cases hle : weightLe (pathWeight kq) (pathWeight ek) with
        | true =>
          rw [mergeGlobs_cons_skip q kq ek tl ex hq hle, hlk]
          exact ih ex hinc.2
        | false =>
          rw [mergeGlobs_cons_win_fst q kq ek tl ex hq hle, List.mem_cons, hlk]
          simp only [hp, false_or]
          rw [ih (dictErase q ex) hinc.2]
          constructor
          · rintro ⟨k, hk, hfor⟩
            refine ⟨k, hk, fun ek' hek' => ?_⟩
            apply hfor
            rwa [dictLookup_erase_ne q p ex hne]
          · rintro ⟨k, hk, hfor⟩
            refine ⟨k, hk, fun ek' hek' => ?_⟩
            apply hfor
            rwa [dictLookup_erase_ne q p ex hne] at hek'

theorem mergeGlobs_disjoint (inc ex : List (String × String))
    (hex : (ex.map Prod.fst).Nodup) (p : String)
    (h : p ∈ (mergeGlobs inc ex).1) : p ∉ (mergeGlobs inc ex).2 := by
  induction inc generalizing ex with
  | nil => simp [mergeGlobs] at h
  | cons hd tl ih =>
    obtain ⟨q, kq⟩ := hd
    cases hq : dictLookup q ex with
    | none =>
      rw [mergeGlobs_cons_none_fst q kq tl ex hq] at h
      rw [mergeGlobs_cons_none_snd q kq tl ex hq]
      rcases List.mem_cons.mp h with hpq | h
      · subst hpq
        intro hc
        exact (dictLookup_none_iff p ex).mp hq (mergeGlobs_excludes_sub tl ex p hc)
      · exact ih ex hex h
    | some ek =>
      cases hle : weightLe (pathWeight kq) (pathWeight ek) with
      | true =>
        rw [mergeGlobs_cons_skip q kq ek tl ex hq hle] at h ⊢
        exact ih ex hex h
      | false =>
        rw [mergeGlobs_cons_win_fst q kq ek tl ex hq hle] at h
        rw [mergeGlobs_cons_win_snd q kq ek tl ex hq hle]
        rcases List.mem_cons.mp h with hpq | h
        · subst hpq
          intro hc
          exact not_mem_dictErase_keys p ex hex
            (mergeGlobs_excludes_sub tl (dictErase p ex) p hc)
        · exact ih (dictErase q ex)
            ((dictErase_map_fst_sublist q ex).nodup hex) h


/-! ### Sorting lemmas (`Builder.build`) -/

theorem pairLe_trans (a b c : String × String) (hab : pairLe a b = true)
    (hbc : pairLe b c = true) : pairLe a c = true := by
  simp only [pairLe, decide_eq_true_eq] at *
  rcases hab with h1 | ⟨h1, h1'⟩ <;> rcases hbc with h2 | ⟨h2, h2'⟩
  · exact Or.inl (lt_trans h1 h2)
  · exact Or.inl (h2 ▸ h1)
  · exact Or.inl (h1 ▸ h2)
  · exact Or.inr ⟨h1.trans h2, le_trans h1' h2'⟩

theorem pairLe_total (a b : String × String) :
    (pairLe a b || pairLe b a) = true := by
  simp only [pairLe, Bool.or_eq_true, decide_eq_true_eq]
  rcases lt_trichotomy a.1 b.1 with h | h | h
  · exact Or.inl (Or.inl h)
  · rcases le_total a.2 b.2 with h2 | h2
    · exact Or.inl (Or.inr ⟨h, h2⟩)
    · exact Or.inr (Or.inr ⟨h.symm, h2⟩)
  · exact Or.inr (Or.inl h)

theorem pairLe_antisymm (a b : String × String) (hab : pairLe a b = true)
    (hba : pairLe b a = true) : a = b := by
  simp only [pairLe, decide_eq_true_eq] at hab hba
  rcases hab with h1 | ⟨h1, h1'⟩ <;> rcases hba with h2 | ⟨h2, h2'⟩
  · exact absurd (lt_trans h1 h2) (lt_irrefl _)
  · exact absurd (h2 ▸ h1) (lt_irrefl _)
  · exact absurd (h1 ▸ h2) (lt_irrefl _)
  · exact Prod.ext h1 (le_antisymm h1' h2')

theorem pythonSorted_sorted (l : List (String × String)) :
    List.Pairwise (fun a b => pairLe a b = true) (pythonSorted l) :=
  List.sorted_mergeSort pairLe_trans pairLe_total l

theorem pythonSorted_perm_eq (l l' : List (String × String))
    (h : l.Perm l') : pythonSorted l = pythonSorted l' := by
  haveI : IsAntisymm (String × String) (fun a b => pairLe a b = true) :=
    ⟨pairLe_antisymm⟩
  exact List.eq_of_perm_of_sorted
    (((List.mergeSort_perm l pairLe).trans h).trans
      (List.mergeSort_perm l' pairLe).symm)
    (pythonSorted_sorted l) (pythonSorted_sorted l')


/-! ### Wheel RECORD lemmas -/

theorem wheelBuildZip_foldl (fsContent : String → List Nat)
    (files : List (String × String)) (zf : List (String × List Nat))
    (recs : List RecordEntry) :
    files.foldl
      (fun (acc : List (String × List Nat) × List RecordEntry) pf =>
        let s := addFileToZip fsContent acc.1 pf.1 pf.2
        (s.1, acc.2 ++ [s.2]))
      (zf, recs) =
    (zf ++ files.map (fun pf => (pf.1, fsContent pf.2)),
      recs ++ files.map (recordOf fsContent)) := by
  induction files generalizing zf recs with
  | nil => simp
  | cons hd tl ih =>
    simp only [List.foldl_cons, List.map_cons]
    rw [ih]
    simp [addFileToZip, writeZipInfo, recordOf]

/-! ### `_collect_files` lemmas -/

theorem mem_dictInsert_keys {α : Type} (k : String) (v : α)
    (d : List (String × α)) (p : String)
    (h : p ∈ (dictInsert k v d).map Prod.fst) :
    p = k ∨ p ∈ d.map Prod.fst := by
  induction d with
  | nil => simpa [dictInsert] using h
  | cons hd tl ih =>
    by_cases hk : k = hd.1
    · subst hk
      simpa [dictInsert] using h
    · simp only [dictInsert, if_neg hk, List.map_cons, List.mem_cons] at h
      rcases h with h | h
      · exact Or.inr (by simp [h])
      · rcases ih h with h | h
        · exact Or.inl h
        · exact Or.inr (List.mem_cons_of_mem _ h)

theorem mem_setItem_keys (m : FileMap) (k v p : String)
    (h : p ∈ (m.setItem k v).keys) :
    p = fileMapNormalize k ∨ p ∈ m.keys :=
  mem_dictInsert_keys _ _ _ _ h

theorem collectDir_keys (fs : FS) (excludes : List String) (m : FileMap)
    (includePath p : String) (h : p ∈ (collectDir fs excludes m includePath).keys) :
    p ∈ m.keys ∨
      ∃ f ∈ fs.files, strEndsWith f ".pyc" = false ∧ p = fileMapNormalize f := by
  have main : ∀ (l : List String), (∀ f ∈ l, f ∈ fs.files) → ∀ (m : FileMap),
      p ∈ (l.foldl
        (fun files q =>
          if strEndsWith q ".pyc" || isExcluded q excludes then files
          else files.setItem q q) m).keys →
      p ∈ m.keys ∨
        ∃ f ∈ fs.files, strEndsWith f ".pyc" = false ∧ p = fileMapNormalize f := by
    intro l
    induction l with
    | nil => intro _ m h; exact Or.inl h
    | cons hd tl ih =>
      intro hsub m h
      simp only [List.foldl_cons] at h
      by_cases hskip : (strEndsWith hd ".pyc" || isExcluded hd excludes) = true
      · rw [if_pos hskip] at h
        exact ih (fun f hf => hsub f (List.mem_cons_of_mem _ hf)) m h
      · rw [if_neg (by simpa using hskip)] at h
        rcases ih (fun f hf => hsub f (List.mem_cons_of_mem _ hf)) _ h with h | h
        · rcases mem_setItem_keys m hd hd p h with h | h
          · refine Or.inr ⟨hd, hsub hd (List.mem_cons_self _ _), ?_, h⟩
            simp only [Bool.or_eq_true, not_or] at hskip
            simpa using hskip.1
          · exact Or.inl h
        · exact Or.inr h
  refine main (globStar fs includePath) (fun f hf => ?_) m h
  exact List.mem_of_mem_filter hf

theorem collectFiles_keys (fs : FS) (includes excludes : List String)
    (p : String) (h : p ∈ (collectFiles fs includes excludes).keys) :
    (∃ inc ∈ includes, inc ∈ fs.files ∧ p = fileMapNormalize inc) ∨
      ∃ f ∈ fs.files, strEndsWith f ".pyc" = false ∧ p = fileMapNormalize f := by
  have main : ∀ (l : List String) (m : FileMap),
      p ∈ (l.foldl
        (fun files includePath =>
          if includePath ∈ fs.files then files.setItem includePath includePath
          else collectDir fs excludes files includePath) m).keys →
      p ∈ m.keys ∨
        (∃ inc ∈ l, inc ∈ fs.files ∧ p = fileMapNormalize inc) ∨
        ∃ f ∈ fs.files, strEndsWith f ".pyc" = false ∧ p = fileMapNormalize f := by
    intro l
    induction l with
    | nil => intro m h; exact Or.inl h
    | cons hd tl ih =>
      intro m h
      simp only [List.foldl_cons] at h
      by_cases hf : hd ∈ fs.files
      · rw [if_pos hf] at h
        rcases ih _ h with h | h | h
        · rcases mem_setItem_keys m hd hd p h with h | h
          · exact Or.inr (Or.inl ⟨hd, List.mem_cons_self _ _, hf, h⟩)
          · exact Or.inl h
        · obtain ⟨inc, hinc, hrest⟩ := h
          exact Or.inr (Or.inl ⟨inc, List.mem_cons_of_mem _ hinc, hrest⟩)
        · exact Or.inr (Or.inr h)
      · rw [if_neg hf] at h
        rcases ih _ h with h | h | h
        · rcases collectDir_keys fs excludes m hd p h with h | h
          · exact Or.inl h
          · exact Or.inr (Or.inr h)
        · obtain ⟨inc, hinc, hrest⟩ := h
          exact Or.inr (Or.inl ⟨inc, List.mem_cons_of_mem _ hinc, hrest⟩)
        · exact Or.inr (Or.inr h)
  rcases main includes FileMap.empty h with h | h | h
  · simp [FileMap.empty, FileMap.keys] at h
  · exact Or.inl h
  · exact Or.inr h


/-! ### `FileMap` lemmas -/

theorem dictInsert_dictInsert {α : Type} (k : String) (v1 v2 : α)
    (d : List (String × α)) :
    dictInsert k v2 (dictInsert k v1 d) = dictInsert k v2 d := by
  induction d with
  | nil => simp [dictInsert]
  | cons hd tl ih =>
    by_cases h : k = hd.1
    · simp [dictInsert, h]
    · simp [dictInsert, h, ih]

theorem dictLookup_some_mem {α : Type} (p : String) (l : List (String × α))
    (v : α) (h : dictLookup p l = some v) : p ∈ l.map Prod.fst := by
  by_contra hc
  rw [← dictLookup_none_iff] at hc
  rw [h] at hc
  cases hc



/-! ### Editable-build lemmas -/

theorem epMap_preserves (fsKind : String → PathKind)
    (resolve : String → String → String) (ep ep' : EditableProject)
    (name target : String)
    (h : epMap fsKind resolve ep name target = .ok ep') :
    ep'.pathEntries = ep.pathEntries ∧ ep'.projectDir = ep.projectDir := by
  unfold epMap at h
  split at h
  · cases h
  · split at h
    · cases h
      exact ⟨rfl, rfl⟩
    · cases h

theorem preparePackages_preserves (fsKind : String → PathKind)
    (resolve : String → String → String) (packageDir : String)
    (packages : List String) (ep ep' : EditableProject)
    (h : preparePackages fsKind resolve packageDir packages ep = .ok ep') :
    ep'.pathEntries = ep.pathEntries ∧ ep'.projectDir = ep.projectDir := by
  induction packages generalizing ep with
  | nil =>
    unfold preparePackages at h
    cases h
    exact ⟨rfl, rfl⟩
  | cons hd tl ih =>
    unfold preparePackages at h
    split at h
    · exact ih ep h
    · split at h
      · rename_i ep1 hstep
        have h1 := epMap_preserves fsKind resolve ep ep1 hd _ hstep
        have h2 := ih ep1 h
        exact ⟨h2.1.trans h1.1, h2.2.trans h1.2⟩
      · cases h

theorem prepareModules_preserves (fsKind : String → PathKind)
    (resolve : String → String → String)
    (globFirst : String → String → Option String) (packageDir : String)
    (modules : List String) (ep ep' : EditableProject)
    (h : prepareModules fsKind resolve globFirst packageDir modules ep =
      .ok ep') :
    ep'.pathEntries = ep.pathEntries ∧ ep'.projectDir = ep.projectDir := by
  induction modules generalizing ep with
  | nil =>
    unfold prepareModules at h
    cases h
    exact ⟨rfl, rfl⟩
  | cons hd tl ih =>
    unfold prepareModules at h
    split at h
    · exact ih ep h
    · split at h
      · split at h
        · rename_i path hglob ep1 hstep
          have h1 := epMap_preserves fsKind resolve ep ep1 hd _ hstep
          have h2 := ih ep1 h
          exact ⟨h2.1.trans h1.1, h2.2.trans h1.2⟩
        · cases h
      · exact ih ep h


/-! ### Marker-rendering lemmas -/

theorem renderItems_append_and (l : List MarkerItem) (hl : l ≠ [])
    (e : String) :
    renderItems (l ++ [.op "and", .expr e]) = renderItems l ++ " and " ++ e := by
  induction l with
  | nil => exact absurd rfl hl
  | cons x tl ih =>
    cases tl with
    | nil =>
      show renderItems [x, .op "and", .expr e] = renderItem x ++ " and " ++ e
      have h : (" and " : String) = " " ++ "and" ++ " " := rfl
      rw [h]
      show renderItem x ++ " " ++ ("and" ++ " " ++ e) =
        renderItem x ++ (" " ++ "and" ++ " ") ++ e
      simp only [String.append_assoc]
    | cons y rest =>
      have hne : (y :: rest) ≠ ([] : List MarkerItem) := by simp
      have step : renderItems ((x :: y :: rest) ++ [.op "and", .expr e]) =
          renderItem x ++ " " ++ renderItems ((y :: rest) ++ [.op "and", .expr e]) := by
        rfl
      rw [step, ih hne]
      show renderItem x ++ " " ++ (renderItems (y :: rest) ++ " and " ++ e) =
        renderItem x ++ " " ++ renderItems (y :: rest) ++ " and " ++ e
      simp [String.append_assoc]


/-! ### Bit lemmas for `normalize_file_permissions` -/

theorem testBit_normalizeFilePermissions (m i : Nat) :
    (normalizeFilePermissions m).testBit i =
      (((m.testBit i || (420 : Nat).testBit i) && !((91 : Nat).testBit i)) ||
        (decide (m &&& 64 ≠ 0) && (73 : Nat).testBit i)) := by
  unfold normalizeFilePermissions
  by_cases h : m &&& 64 ≠ 0 <;>
    simp [h, Nat.testBit_lor, Nat.testBit_ldiff]

theorem const_testBit_high (c : Nat) (hc : c < 512) (i : Nat) (hi : 9 ≤ i) :
    c.testBit i = false := by
  apply Nat.testBit_eq_false_of_lt
  calc c < 512 := hc
    _ = 2 ^ 9 := by norm_num
    _ ≤ 2 ^ i := Nat.pow_le_pow_right (by norm_num) hi

theorem mask_cover (i : Nat) (hi : i < 9) :
    ((420 : Nat).testBit i || (91 : Nat).testBit i) = true := by
  have h : ((420 : Nat) ||| 91).testBit i = true := by
    rw [show (420 : Nat) ||| 91 = 511 from by decide,
      show (511 : Nat) = 2 ^ 9 - 1 from by norm_num,
      Nat.testBit_two_pow_sub_one]
    simpa using hi
  rw [Nat.testBit_lor] at h
  exact h

theorem mask_disjoint (i : Nat) :
    ((420 : Nat).testBit i && (91 : Nat).testBit i) = false := by
  have h : ((420 : Nat) &&& 91).testBit i = false := by
    rw [show (420 : Nat) &&& 91 = 0 from by decide]
    simp
  rw [Nat.testBit_land] at h
  exact h

theorem exec_sub (i : Nat) :
    ((73 : Nat).testBit i && !(91 : Nat).testBit i) = false := by
  have h : ((73 : Nat) &&& 91) = 73 := by decide
  have h2 : (73 : Nat).testBit i =
      ((73 : Nat).testBit i && (91 : Nat).testBit i) := by
    conv_lhs => rw [← h]
    rw [Nat.testBit_land]
  rw [h2]
  cases h73 : (73 : Nat).testBit i <;> cases h91 : (91 : Nat).testBit i <;>
    simp [h73, h91]

/-! ## Claim theorems -/

/-- C1: for every pair of resolved include/exclude dictionaries, a path
present in both sides is kept as an include exactly when its include
pattern's weight (parts count, negative wildcard count with `**`
counting 2 and other wildcard parts counting 1) is strictly greater
than the exclude pattern's weight in the tuple order (so a tie goes to
the exclude), and the two output lists are disjoint (a winning include
removes the path from the exclude list). -/
theorem merge_globs_priority (includeGlobs excludesGlobs : List (String × String))
    (hinc : (includeGlobs.map Prod.fst).Nodup)
    (hex : (excludesGlobs.map Prod.fst).Nodup) :
    (∀ p k ek, dictLookup p includeGlobs = some k →
      dictLookup p excludesGlobs = some ek →
      (p ∈ (mergeGlobs includeGlobs excludesGlobs).1 ↔
        weightLe (pathWeight k) (pathWeight ek) = false)) ∧
    ∀ p, p ∈ (mergeGlobs includeGlobs excludesGlobs).1 →
      p ∉ (mergeGlobs includeGlobs excludesGlobs).2 := by
  constructor
  · intro p k ek hk hek
    rw [mergeGlobs_mem_includes _ _ hinc p]
    constructor
    · rintro ⟨k', hk', hfor⟩
      have heq : k = k' := by
        have := hk.symm.trans hk'
        exact Option.some.inj this
      subst heq
      exact hfor ek hek
    · intro hlt
      refine ⟨k, hk, fun ek' hek' => ?_⟩
      have heq : ek = ek' := by
        have := hek.symm.trans hek'
        exact Option.some.inj this
      subst heq
      exact hlt
  · exact fun p => mergeGlobs_disjoint _ _ hex p

/-- Witness for C1 at the spec's own example: the exclude pattern
`pkg/data/*.json` (weight (3, -1)) beats the recursive include
`**/*.json` (weight (2, -3)) on the shared path `pkg/data/y.json`. -/
theorem merge_globs_priority_witness :
    "pkg/data/y.json" ∉ (mergeGlobs [("pkg/data/y.json", "**/*.json")]
      [("pkg/data/y.json", "pkg/data/*.json")]).1 := fun hmem =>
  absurd
    ((merge_globs_priority [("pkg/data/y.json", "**/*.json")]
        [("pkg/data/y.json", "pkg/data/*.json")] (by decide) (by decide)).1
      "pkg/data/y.json" "**/*.json" "pkg/data/*.json" (by decide) (by decide)
      |>.mp hmem)
    (by decide)

/-- C8: `normalize_file_permissions` always produces permission bits
exactly `0o644` (owner execute clear) or `0o755` (owner execute set)
in its low nine bits and leaves every higher bit of `st_mode`
unchanged. -/
theorem normalize_file_permissions_spec (st_mode : Nat) :
    normalizeFilePermissions st_mode % 512 =
      (if st_mode &&& 0o100 = 0 then 0o644 else 0o755) ∧
    normalizeFilePermissions st_mode / 512 = st_mode / 512 := by
  have key : ∀ (b a c e : Bool), (a || c) = true → (a && c) = false →
      (e && !c) = false →
      (((b || a) && !c) = a ∧ (((b || a) && !c) || e) = (a || e)) := by decide
  constructor
  · apply Nat.eq_of_testBit_eq
    intro i
    rw [show (512 : Nat) = 2 ^ 9 from by norm_num, Nat.testBit_mod_two_pow,
      testBit_normalizeFilePermissions]
    by_cases h0 : st_mode &&& 64 = 0
    · simp only [show (0o100 : Nat) = 64 from rfl, h0, if_pos, ne_eq,
        not_true_eq_false, decide_False, Bool.false_and, Bool.or_false]
      by_cases hi : i < 9
      · simp only [hi, decide_True, Bool.true_and]
        exact (key (st_mode.testBit i) _ _ ((73 : Nat).testBit i)
          (mask_cover i hi) (mask_disjoint i) (exec_sub i)).1
      · simp only [hi, decide_False, Bool.false_and]
        exact (const_testBit_high 420 (by norm_num) i (by omega)).symm
    · simp only [show (0o100 : Nat) = 64 from rfl, h0, if_neg, ne_eq,
        not_false_eq_true, decide_True, Bool.true_and]
      have h493 : ∀ j, (493 : Nat).testBit j =
          ((420 : Nat).testBit j || (73 : Nat).testBit j) := by
        intro j
        rw [show (493 : Nat) = 420 ||| 73 from by decide, Nat.testBit_lor]
      by_cases hi : i < 9
      · simp only [hi, decide_True, Bool.true_and, h493]
        exact (key (st_mode.testBit i) _ _ ((73 : Nat).testBit i)
          (mask_cover i hi) (mask_disjoint i) (exec_sub i)).2
      · simp only [hi, decide_False, Bool.false_and]
        exact (const_testBit_high 493 (by norm_num) i (by omega)).symm
  · rw [show (512 : Nat) = 2 ^ 9 from by norm_num,
      ← Nat.shiftRight_eq_div_pow, ← Nat.shiftRight_eq_div_pow]
    apply Nat.eq_of_testBit_eq
    intro i
    rw [Nat.testBit_shiftRight, Nat.testBit_shiftRight,
      testBit_normalizeFilePermissions]
    have hhi : 9 ≤ 9 + i := by omega
    simp [const_testBit_high 420 (by norm_num) (9 + i) hhi,
      const_testBit_high 91 (by norm_num) (9 + i) hhi,
      const_testBit_high 73 (by norm_num) (9 + i) hhi]

/-- C9: the `(relpath, path)` list `Builder.build` hands to
`build_artifact` is sorted ascending by archive-relative path, and is
the same list for any two enumeration orders of the same file set. -/
theorem build_files_sorted (l l' : List (String × String)) (hperm : l.Perm l') :
    List.Pairwise (fun a b : String × String => a.1 ≤ b.1) (pythonSorted l) ∧
    pythonSorted l = pythonSorted l' := by
  constructor
  · refine (pythonSorted_sorted l).imp (fun {a b} h => ?_)
    simp only [pairLe, decide_eq_true_eq] at h
    rcases h with h | ⟨h, _⟩
    · exact le_of_lt h
    · exact le_of_eq h
  · exact pythonSorted_perm_eq l l' hperm

/-- Witness for C9 on a two-file set enumerated in both orders. -/
theorem build_files_sorted_witness :
    List.Pairwise (fun a b : String × String => a.1 ≤ b.1)
      (pythonSorted [("b.py", "src/b.py"), ("a.py", "src/a.py")]) ∧
    pythonSorted [("b.py", "src/b.py"), ("a.py", "src/a.py")] =
      pythonSorted [("a.py", "src/a.py"), ("b.py", "src/b.py")] :=
  build_files_sorted [("b.py", "src/b.py"), ("a.py", "src/a.py")]
    [("a.py", "src/a.py"), ("b.py", "src/b.py")] (by decide)

/-- C10: `FileMap` writes and reads normalize the key, so two writes
whose keys normalize alike collapse to one entry with the later value,
but `__delitem__` does not normalize: on a map whose stored keys are
all normalized, deleting through a non-normalized alias raises
`KeyError` (modelled as `none`) even though reading through the same
alias succeeds. -/
theorem filemap_normalize_set_not_del :
    (∀ (m : FileMap) (k1 k2 v1 v2 : String),
      fileMapNormalize k1 = fileMapNormalize k2 →
      (m.setItem k1 v1).setItem k2 v2 = m.setItem k2 v2) ∧
    (∀ (m : FileMap) (k v : String),
      (∀ key ∈ m.keys, fileMapNormalize key = key) →
      fileMapNormalize k ≠ k →
      dictLookup (fileMapNormalize k) m.data = some v →
      m.getItem k = some v ∧ m.delItem k = none) := by
  constructor
  · intro m k1 k2 v1 v2 h
    simp only [FileMap.setItem, h]
    rw [dictInsert_dictInsert]
  · intro m k v hinv hk hlook
    refine ⟨hlook, ?_⟩
    cases hfind : dictLookup k m.data with
    | none => simp [FileMap.delItem, hfind]
    | some w =>
      exact absurd (hinv k (dictLookup_some_mem k m.data w hfind)) hk

/-- Witness for C10: on `{"a/b.py": "src"}` the alias `./a/b.py` reads
the entry but cannot delete it. -/
theorem filemap_normalize_set_not_del_witness :
    (FileMap.mk [("a/b.py", "src")]).getItem "./a/b.py" = some "src" ∧
    (FileMap.mk [("a/b.py", "src")]).delItem "./a/b.py" = none :=
  filemap_normalize_set_not_del.2 (FileMap.mk [("a/b.py", "src")])
    "./a/b.py" "src" (by decide) (by decide) (by decide)


/-- C2: the wheel archive consists of one entry per input file followed
by RECORD as the last entry, and the RECORD bytes are exactly the CSV
rows obtained by independently re-hashing the bytes stored in each
archive entry (`sha256=` plus padding-stripped URL-safe base64) with
the byte count, plus the final self row with empty hash and size. -/
theorem wheel_record_integrity (fsContent : String → List Nat)
    (distInfoName : String) (files : List (String × String)) :
    wheelBuildZip fsContent distInfoName files =
      files.map (fun pf => (pf.1, fsContent pf.2)) ++
        [(distInfoName ++ "/RECORD",
          recordBytesOfEntries distInfoName
            (files.map (fun pf => (pf.1, fsContent pf.2))))] ∧
    (wheelBuildZip fsContent distInfoName files).getLast? =
      some (distInfoName ++ "/RECORD",
        recordBytesOfEntries distInfoName
          (files.map (fun pf => (pf.1, fsContent pf.2)))) := by
  have heq : wheelBuildZip fsContent distInfoName files =
      files.map (fun pf => (pf.1, fsContent pf.2)) ++
        [(distInfoName ++ "/RECORD",
          recordBytesOfEntries distInfoName
            (files.map (fun pf => (pf.1, fsContent pf.2))))] := by
    unfold wheelBuildZip
    rw [wheelBuildZip_foldl]
    unfold writeRecord writeZipInfo recordBytesOfEntries
    simp only [List.nil_append, List.map_append, List.map_map]
    congr 2
  refine ⟨heq, ?_⟩
  rw [heq, List.getLast?_concat]

/-- C3 counterexample: a `.pyc` file directly named by a resolved
include path is stored in the collected FileMap, refuting "no `.pyc`
ever appears". -/
theorem collect_files_pyc_direct_include :
    "a.pyc" ∈ (collectFiles ⟨["a.pyc"]⟩ ["a.pyc"] []).keys := by decide

/-- C3 amended: a `.pyc` file can only reach the FileMap as a directly
named include path; every file collected through directory recursion is
filtered, so any `.pyc` key originates from an include path that is
itself a file. -/
theorem collect_files_pyc_only_direct (fs : FS)
    (includes excludes : List String)
    (hfs : ∀ f ∈ fs.files, fileMapNormalize f = f) (p : String)
    (hmem : p ∈ (collectFiles fs includes excludes).keys)
    (hpyc : strEndsWith p ".pyc" = true) :
    ∃ inc ∈ includes, inc ∈ fs.files ∧ p = fileMapNormalize inc := by
  rcases collectFiles_keys fs includes excludes p hmem with h | h
  · exact h
  · obtain ⟨f, hf, hnp, rfl⟩ := h
    rw [hfs f hf] at hpyc
    rw [hnp] at hpyc
    cases hpyc

/-- Witness for the amended C3 on the counterexample input. -/
theorem collect_files_pyc_only_direct_witness :
    ∃ inc ∈ ["a.pyc"], inc ∈ (FS.mk ["a.pyc"]).files ∧
      "a.pyc" = fileMapNormalize inc :=
  collect_files_pyc_only_direct ⟨["a.pyc"]⟩ ["a.pyc"] [] (by decide)
    "a.pyc" (by decide) (by decide)

/-- C4 counterexample: with user overrides producing a tag that is not
among the supported tags, the backend `_get_tag` still returns it with
no error, while the spec-modelled checked computation fails. -/
theorem get_tag_unchecked_counterexample :
    getTag (some "cp36") (some "abi3") (some "win_amd64") false
        ⟨"cp310", "cp310", "manylinux_2_17_x86_64"⟩ false =
      "cp36-abi3-win_amd64" ∧
    getTagChecked (some "cp36") (some "abi3") (some "win_amd64") false
        ⟨"cp310", "cp310", "manylinux_2_17_x86_64"⟩
        [⟨"cp310", "cp310", "manylinux_2_17_x86_64"⟩] false =
      .error "cp36-abi3-win_amd64" := by
  constructor <;> rfl

/-- C4 amended: only the legacy pdm/pep517 builder validates the tag —
for a non-purelib build it returns the joined tag exactly when the
computed triple is in the supported list (platform column substituted),
and raises (errors) with the triple otherwise; the current backend
`_get_tag` joins the overridden segments unconditionally. -/
theorem legacy_tag_validates (pythonTag pyLimitedApi platName : Option String)
    (buildPlatform interpNameVer abiTagLower : String) (sysTags : List SysTag)
    (sysTag : SysTag) (r27 : Bool) :
    (legacyTag pythonTag pyLimitedApi platName false buildPlatform
        interpNameVer abiTagLower sysTags r27 =
      (let impl := pythonTag.getD interpNameVer
       let ia := if pyLimitedApi.isSome ∧ strStartsWith impl "cp3" then
           (pyLimitedApi.getD "", "abi3")
         else (impl, abiTagLower)
       let platform := lowerReplace (platName.getD buildPlatform)
       if (ia.1, ia.2, platform) ∈
           sysTags.map (fun t => (t.interpreter, t.abi, platform)) then
         .ok (ia.1 ++ "-" ++ ia.2 ++ "-" ++ platform)
       else .error (ia.1, ia.2, platform))) ∧
    getTag pythonTag pyLimitedApi platName false sysTag r27 =
      pythonTag.getD sysTag.interpreter ++ "-" ++
        pyLimitedApi.getD sysTag.abi ++ "-" ++
        lowerReplace (platName.getD sysTag.platform) := by
  constructor
  · simp only [legacyTag, Bool.false_eq_true, not_false_eq_true, if_true]
  · simp [getTag]

/-- C5 counterexample: the sdist writer opens the destination tarball
itself and writes every entry straight into it — no temporary file and
no move event exists in its trace. -/
theorem sdist_writes_destination_directly :
    FsEvent.writeEntry "dist/demo-1.0.tar.gz" "a.py" ∈
      sdistBuildArtifactTrace "dist/demo-1.0.tar.gz" ["a.py"] ∧
    (sdistBuildArtifactTrace "dist/demo-1.0.tar.gz" ["a.py"]).all
      (fun e => match e with | .move _ _ => false | _ => true) = true := by
  constructor <;> decide

/-- C5 amended: the wheel builder (whose `build_artifact` the editable
builder inherits unchanged) writes every archive entry to the mkstemp
temporary file; the destination is touched only after all entries and
RECORD are written — by the unlink of a pre-existing file and the final
move, which is the last event. -/
theorem wheel_build_artifact_atomic (tempName target : String)
    (files : List String) (targetExists : Bool) (hne : tempName ≠ target) :
    (∀ p rel, FsEvent.writeEntry p rel ∈
        wheelBuildArtifactTrace tempName target files targetExists →
      p = tempName) ∧
    (wheelBuildArtifactTrace tempName target files targetExists).getLast? =
      some (.move tempName target) ∧
    ∀ e ∈ (wheelBuildArtifactTrace tempName target files targetExists).take
        (3 + files.length),
      e.touches target = false := by
  refine ⟨?_, ?_, ?_⟩
  · intro p rel hmem
    by_cases ht : targetExists <;>
      simp only [wheelBuildArtifactTrace, ht, if_true, Bool.false_eq_true,
        if_false, List.append_nil, List.mem_append, List.mem_cons,
        List.mem_singleton, List.mem_map, List.not_mem_nil, or_false,
        false_or, FsEvent.writeEntry.injEq, reduceCtorEq] at hmem
    · rcases hmem with ⟨a, _, rfl, rfl⟩ | ⟨rfl, rfl⟩
      · rfl
      · rfl
    · rcases hmem with ⟨a, _, rfl, rfl⟩ | ⟨rfl, rfl⟩
      · rfl
      · rfl
  · show ((([FsEvent.mkstemp tempName, FsEvent.chmod tempName] ++
      files.map (fun rel => FsEvent.writeEntry tempName rel) ++
      [FsEvent.writeEntry tempName "RECORD"]) ++
      (if targetExists then [FsEvent.unlink target] else [])) ++
      [FsEvent.move tempName target]).getLast? =
      some (FsEvent.move tempName target)
    rw [List.getLast?_concat]
  · intro e he
    have hlen : ([FsEvent.mkstemp tempName, FsEvent.chmod tempName] ++
        files.map (fun rel => FsEvent.writeEntry tempName rel) ++
        [FsEvent.writeEntry tempName "RECORD"]).length =
        3 + files.length := by
      simp
      omega
    have htake : (wheelBuildArtifactTrace tempName target files
        targetExists).take (3 + files.length) =
        [FsEvent.mkstemp tempName, FsEvent.chmod tempName] ++
          files.map (fun rel => FsEvent.writeEntry tempName rel) ++
          [FsEvent.writeEntry tempName "RECORD"] := by
      show ((([FsEvent.mkstemp tempName, FsEvent.chmod tempName] ++
        files.map (fun rel => FsEvent.writeEntry tempName rel) ++
        [FsEvent.writeEntry tempName "RECORD"]) ++
        (if targetExists then [FsEvent.unlink target] else [])) ++
        [FsEvent.move tempName target]).take (3 + files.length) = _
      rw [List.append_assoc, ← hlen, List.take_left]
    rw [htake] at he
    simp only [List.mem_append, List.mem_cons, List.mem_singleton,
      List.mem_map, List.not_mem_nil, or_false] at he
    rcases he with ((rfl | rfl) | ⟨a, _, rfl⟩) | rfl <;>
      simp [FsEvent.touches, hne]

/-- Witness for the amended C5 with a one-file build over an existing
destination. -/
theorem wheel_build_artifact_atomic_witness :
    (∀ p rel, FsEvent.writeEntry p rel ∈
        wheelBuildArtifactTrace "/tmp/x.whl" "dist/demo.whl" ["a.py"] true →
      p = "/tmp/x.whl") ∧
    (wheelBuildArtifactTrace "/tmp/x.whl" "dist/demo.whl" ["a.py"]
      true).getLast? = some (.move "/tmp/x.whl" "dist/demo.whl") ∧
    ∀ e ∈ (wheelBuildArtifactTrace "/tmp/x.whl" "dist/demo.whl" ["a.py"]
        true).take (3 + ["a.py"].length),
      e.touches "dist/demo.whl" = false :=
  wheel_build_artifact_atomic "/tmp/x.whl" "dist/demo.whl" ["a.py"] true
    (by decide)


/-- C6: `_build_extra_req` scopes an optional dependency to its group:
with no pre-existing marker the emitted marker renders exactly as
`extra == "G"`; a marker without a top-level `or` is conjoined as
`<old> and extra == "G"`; a marker containing a top-level `or` is
parenthesized first, rendering `(<old>) and extra == "G"`. -/
theorem build_extra_req_marker (extra : String) (r : Requirement) :
    (r.marker = none →
      (buildExtraReq extra r).marker.map renderMarker =
        some (extraExpr extra)) ∧
    (∀ m, r.marker = some m → m.markers ≠ [] →
      (hasTopLevelOr m = false →
        (buildExtraReq extra r).marker.map renderMarker =
          some (renderMarker m ++ " and " ++ extraExpr extra)) ∧
      (hasTopLevelOr m = true →
        (buildExtraReq extra r).marker.map renderMarker =
          some ("(" ++ renderMarker m ++ ") and " ++ extraExpr extra))) := by
  constructor
  · intro h
    simp [buildExtraReq, h, renderMarker, renderItems, renderItem]
  · intro m hm hne
    constructor
    · intro hor
      simp only [buildExtraReq, hm, hor, Bool.false_eq_true, if_false,
        Option.map_some']
      show some (renderItems (m.markers ++
        [.op "and", .expr (extraExpr extra)])) = _
      rw [renderItems_append_and m.markers hne]
      rfl
    · intro hor
      simp only [buildExtraReq, hm, hor, if_true, Option.map_some']
      show some (("(" ++ renderItems m.markers ++ ")") ++ " " ++
        ("and" ++ " " ++ extraExpr extra)) =
        some ("(" ++ renderMarker m ++ ") and " ++ extraExpr extra)
      have h2 : (") and " : String) = ")" ++ " " ++ "and" ++ " " := rfl
      rw [renderMarker, h2]
      simp only [String.append_assoc]

/-- Witness for C6 on a requirement whose marker
`os_name == "nt" or os_name == "posix"` has a top-level `or`. -/
theorem build_extra_req_marker_witness :
    (buildExtraReq "all"
      ⟨some ⟨[.expr "os_name == \"nt\"", .op "or",
        .expr "os_name == \"posix\""]⟩⟩).marker.map renderMarker =
      some ("(" ++
        renderMarker ⟨[.expr "os_name == \"nt\"", .op "or",
          .expr "os_name == \"posix\""]⟩ ++ ") and " ++ extraExpr "all") :=
  ((build_extra_req_marker "all"
      ⟨some ⟨[.expr "os_name == \"nt\"", .op "or",
        .expr "os_name == \"posix\""]⟩⟩).2
    ⟨[.expr "os_name == \"nt\"", .op "or", .expr "os_name == \"posix\""]⟩
    rfl (List.cons_ne_nil _ _)).2 rfl

/-- C7: whenever an editable build with the `editables` backend ends
its redirection step with no redirection at all, the resulting project
has exactly one raw path entry — the resolved package directory — and
the namespace-package fallback warning is emitted. -/
theorem editable_fallback_path_entry (fsKind : String → PathKind)
    (resolve : String → String → String)
    (globFirst : String → String → Option String)
    (metadataName projectDir packageDir : String)
    (packages pyModules : List String) (ep : EditableProject)
    (warns : List String)
    (hres : prepareEditable fsKind resolve globFirst metadataName projectDir
      packageDir "editables" packages pyModules = .ok (ep, warns))
    (hempty : ep.redirections = []) :
    ep.pathEntries = [resolve projectDir packageDir] ∧
      warns = [editableFallbackWarning] := by
  simp only [prepareEditable, eq_self_iff_true, if_true] at hres
  by_cases hvalid :
      isValidProjectName (toFilename (safeName metadataName)) = true
  · rw [if_neg (fun hc => hc hvalid)] at hres
    cases hpk : preparePackages fsKind resolve packageDir packages
        ⟨normalizeProjectName (toFilename (safeName metadataName)),
          "_editable_impl_" ++
            normalizeProjectName (toFilename (safeName metadataName)),
          projectDir, [], []⟩ with
    | error e =>
      rw [hpk] at hres
      cases hres
    | ok ep1 =>
      rw [hpk] at hres
      dsimp only at hres
      cases hpm : prepareModules fsKind resolve globFirst packageDir
          pyModules ep1 with
      | error e =>
        rw [hpm] at hres
        cases hres
      | ok ep2 =>
        rw [hpm] at hres
        dsimp only at hres
        have hpres1 := preparePackages_preserves fsKind resolve packageDir
          packages _ ep1 hpk
        have hpres2 := prepareModules_preserves fsKind resolve globFirst
          packageDir pyModules ep1 ep2 hpm
        by_cases hred : ep2.redirections = []
        · rw [if_pos hred] at hres
          cases hres
          refine ⟨?_, rfl⟩
          show ep2.pathEntries ++ [resolve ep2.projectDir packageDir] = _
          rw [hpres2.1, hpres1.1, hpres2.2, hpres1.2]
          rfl
        · rw [if_neg hred] at hres
          cases hres
          exact absurd hempty hred
  · rw [if_pos hvalid] at hres
    cases hres

/-- Witness for C7: a project with only the dotted namespace package
`ns.pkg` establishes no redirection and falls back to one path entry. -/
theorem editable_fallback_path_entry_witness :
    (⟨"demo", "_editable_impl_demo", "/proj", [],
      ["/proj/src"]⟩ : EditableProject).pathEntries =
      [(fun (d p : String) => d ++ "/" ++ p) "/proj" "src"] ∧
    [editableFallbackWarning] = [editableFallbackWarning] :=
  editable_fallback_path_entry (fun _ => PathKind.nothing)
    (fun d p => d ++ "/" ++ p) (fun _ _ => none) "demo" "/proj" "src"
    ["ns.pkg"] [] ⟨"demo", "_editable_impl_demo", "/proj", [], ["/proj/src"]⟩
    [editableFallbackWarning] (by rfl) (by rfl)

end PdmBackend
